import Mathlib

/-!
Shallow embedding of the budgetapp backup/restore subsystem.

Sources:
* `src/utils/DatabaseManager.ts` — record store (`addSpending` with its
  five-minute duplicate check).
* `src/utils/AutoBackupScheduler.ts` — schedule policy persistence and the
  background tick (`saveSchedule`, `shouldCreateBackup`, `isBackupTime`,
  `createAutomaticBackup`).
* `src/unnamed/part_004` — two near-duplicate copies of
  `DatabaseBackupManager` (backup codec, repository, restore).  The first
  copy (lines 1–560) restores with per-record error isolation and no
  transaction; the second copy (lines 561–1052) wraps the restore in
  BEGIN/COMMIT/ROLLBACK.  Both are embedded below.

Modelling conventions:
* JavaScript values flowing through `JSON.parse`/`JSON.stringify` are
  modelled by the `JsonValue` tree; the identity
  `JSON.parse (JSON.stringify v) = v` on JSON trees is the external JSON
  library's contract, so "the JSON text of v" is modelled by v itself.
* ISO-8601 timestamp strings are modelled by their integer millisecond
  value: on equal-format ISO strings, SQLite's lexicographic string
  comparison agrees with numeric comparison of the instants, and
  `new Date(s).getTime()` is exactly that integer.
* JS numbers are modelled by ℚ (the concrete programs only handle exact
  decimal amounts; float rounding is not in scope of any claim).
* Each asynchronous primitive (a db statement, an AsyncStorage or file
  write) either succeeds or throws; a throw performs no state change.
  Failure injection (`failAt`) names the index of the primitive operation
  that throws, mirroring "restore fails at some point".
-/

/-- A parsed JSON value (result of `JSON.parse`). -/
inductive JsonValue where
  | null : JsonValue
  | bool : Bool → JsonValue
  | num : ℚ → JsonValue
  | str : String → JsonValue
  | arr : List JsonValue → JsonValue
  | obj : List (String × JsonValue) → JsonValue

/-- First binding of a key in a JS object literal, as property access finds it. -/
def lookupStr : List (String × JsonValue) → String → Option JsonValue
  | [], _ => none
  | (k', v) :: rest, k => if k' = k then some v else lookupStr rest k

/-- Property access `v.k`: `undefined` (= `none`) on non-objects and absent keys.
(Accessing a property of `null`/`undefined` throws in JS; every use site below
sits under a `try/catch` that turns the throw into the same result as a falsy
read, so `none` is the faithful observable outcome.) -/
def getField : JsonValue → String → Option JsonValue
  | .obj fields, k => lookupStr fields k
  | _, _ => none

/-- JS truthiness of a possibly-absent value. -/
def truthy : Option JsonValue → Bool
  | none => false
  | some .null => false
  | some (.bool b) => b
  | some (.num q) => q != 0
  | some (.str s) => s != ""
  | some (.arr _) => true
  | some (.obj _) => true

/-- A row of the `spending` table: `id INTEGER PRIMARY KEY AUTOINCREMENT,
amount REAL, details TEXT, date TEXT` (dates modelled as ms instants). -/
structure SpendingRecord where
  id : Nat
  amount : ℚ
  details : String
  date : Int
deriving DecidableEq

/-- The live `spending` table plus the AUTOINCREMENT counter. -/
structure DBState where
  records : List SpendingRecord
  nextId : Nat
deriving DecidableEq

/-- Result row of `runAsync` (`lastInsertRowId`, `changes`). -/
structure RunResult where
  lastInsertRowId : Nat
  changes : Nat
deriving DecidableEq

/-- The duplicate test of `Database.addSpending`
(`SELECT * FROM spending WHERE amount = ? AND details = ? AND date > ?`). -/
def isRecentDuplicate (amount : ℚ) (details : String) (cutoff : Int)
    (r : SpendingRecord) : Bool :=
  r.amount == amount && r.details == details && decide (cutoff < r.date)

/-- `Database.addSpending` (src/utils/DatabaseManager.ts:74-119): computes
`fiveMinutesAgo = now − 5min`, returns the first matching recent duplicate as
a no-op (`changes = 0`), otherwise inserts a fresh row. -/
def addSpending (st : DBState) (now : Int) (amount : ℚ) (details : String)
    (date : Int) : RunResult × DBState :=
  let fiveMinutesAgo : Int := now - 5 * 60 * 1000
  let existing := st.records.filter (isRecentDuplicate amount details fiveMinutesAgo)
  match existing with
  | e :: _ => ({ lastInsertRowId := e.id, changes := 0 }, st)
  | [] =>
    ({ lastInsertRowId := st.nextId, changes := 1 },
     ⟨st.records ++ [⟨st.nextId, amount, details, date⟩], st.nextId + 1⟩)

/-- `dateRange` part of backup metadata. -/
structure DateRange where
  earliest : String
  latest : String
deriving DecidableEq

/-- `BackupData.metadata`. -/
structure BackupMetadata where
  totalRecords : Nat
  dateRange : DateRange
  totalAmount : ℚ
deriving DecidableEq

/-- The `BackupData` snapshot document. `settings` is the opaque blob read
from AsyncStorage (or `null`). -/
structure BackupData where
  version : String
  timestamp : Int
  spending : List SpendingRecord
  settings : Option JsonValue
  metadata : BackupMetadata

/-- Rendering of a ms instant back to an ISO string.  Only injectivity and
the fact that it is never the empty string matter to any claim, so the
numeral rendering stands in for the ISO-8601 format. -/
def isoOfTime (t : Int) : String := toString t

/-- `Math.min(...list)` for a nonempty list (the empty case is unreachable in
`calculateMetadata`). -/
def minList : List Int → Int
  | [] => 0
  | d :: ds => ds.foldl min d

/-- `Math.max(...list)` for a nonempty list. -/
def maxList : List Int → Int
  | [] => 0
  | d :: ds => ds.foldl max d

/-- `calculateMetadata` (src/unnamed/part_004:466-487 and 959-980). -/
def calculateMetadata (spending : List SpendingRecord) : BackupMetadata :=
  if spending.length = 0 then
    ⟨0, ⟨"", ""⟩, 0⟩
  else
    let amounts := spending.map (·.amount)
    let dates := spending.map (·.date)
    let totalAmount := amounts.foldl (· + ·) 0
    let earliestDate := isoOfTime (minList dates)
    let latestDate := isoOfTime (maxList dates)
    ⟨spending.length, ⟨earliestDate, latestDate⟩, totalAmount⟩

/-- The backup format version constant `BACKUP_VERSION`. -/
def BACKUP_VERSION : String := "1.0.0"

/-- The `BackupData` object built inside `createBackup`
(src/unnamed/part_004:101-107): this is the codec's serialize step. -/
def serializeBackup (recs : List SpendingRecord) (settings : Option JsonValue)
    (now : Int) : BackupData :=
  ⟨BACKUP_VERSION, now, recs, settings, calculateMetadata recs⟩

/-- JSON image of one spending row as written by `JSON.stringify`. -/
def encodeRecord (r : SpendingRecord) : JsonValue :=
  .obj [("id", .num r.id), ("amount", .num r.amount),
        ("details", .str r.details), ("date", .num r.date)]

/-- JSON image of a whole snapshot as written by `JSON.stringify`. -/
def encodeBackup (bd : BackupData) : JsonValue :=
  .obj [("version", .str bd.version),
        ("timestamp", .num bd.timestamp),
        ("spending", .arr (bd.spending.map encodeRecord)),
        ("settings", bd.settings.getD .null),
        ("metadata", .obj [("totalRecords", .num bd.metadata.totalRecords),
                           ("dateRange", .obj [("earliest", .str bd.metadata.dateRange.earliest),
                                               ("latest", .str bd.metadata.dateRange.latest)]),
                           ("totalAmount", .num bd.metadata.totalAmount)])]

/-- The per-record clause of `verifyBackupIntegrity`
(`!record.id || !record.amount || !record.details || !record.date`). -/
def spendingRecordOk (r : JsonValue) : Bool :=
  truthy (getField r "id") && truthy (getField r "amount") &&
    truthy (getField r "details") && truthy (getField r "date")

/-- `verifyBackupIntegrity` (src/unnamed/part_004:431-461 and 924-954).
The version comparison only logs, so it does not appear in the result.  The
source checks `Array.isArray(spending)` after the truthiness guard and then
loops over the records; the match below is that check-then-loop (a non-array
that survived the truthiness guard hits the `| _` arm). -/
def verifyBackupIntegrity (v : JsonValue) : Bool :=
  if !truthy (getField v "version") || !truthy (getField v "timestamp")
      || !truthy (getField v "spending") then
    false
  else
    match getField v "spending" with
    | some (.arr recs) => recs.all spendingRecordOk
    | _ => false

/-- Read a JSON number back as the integer it stores. -/
def ratToInt? (q : ℚ) : Option Int :=
  if q.den = 1 then some q.num else none

/-- Reading one parsed record the way the restore loop consumes it
(`record.id`, `record.amount`, `record.details`, `record.date`, with ids and
dates integral). -/
def decodeRecord (v : JsonValue) : Option SpendingRecord :=
  match getField v "id", getField v "amount", getField v "details", getField v "date" with
  | some (.num i), some (.num a), some (.str d), some (.num t) =>
    match ratToInt? i, ratToInt? t with
    | some iv, some tv => if 0 ≤ iv then some ⟨iv.toNat, a, d, tv⟩ else none
    | _, _ => none
  | _, _, _, _ => none

/-- Reading a parsed record list element by element. -/
def decodeRecords : List JsonValue → Option (List SpendingRecord)
  | [] => some []
  | v :: vs =>
    match decodeRecord v, decodeRecords vs with
    | some r, some rs => some (r :: rs)
    | _, _ => none

/-- Reading the `spending` array of a deserialized snapshot. -/
def decodeSpendingRecords (v : JsonValue) : Option (List SpendingRecord) :=
  match getField v "spending" with
  | some (.arr l) => decodeRecords l
  | _ => none

/-- A snapshot file inside the managed `backups/` directory.  The filename is
determined by `(imported, ts)` (`budget_backup[_imported]_<sanitized ts>.json`);
`content` is the parse of the stored text. -/
structure BackupFile where
  imported : Bool
  ts : Int
  content : JsonValue

/-- The managed backup directory. -/
structure RepoState where
  files : List BackupFile

/-- Derived `BackupInfo` summary.  File sizes are environmental
(`getInfoAsync(...).size || 0`) and matter to no claim; they are modelled as 0. -/
structure BackupInfo where
  id : Int
  filename : String
  timestamp : Int
  size : Nat
  recordCount : Nat
  totalAmount : ℚ
  isVerified : Bool

/-- `MAX_BACKUPS` — the retention cap. -/
def MAX_BACKUPS : Nat := 10

/-- The filename pattern of a snapshot file. -/
def mkFilename (imported : Bool) (ts : Int) : String :=
  if imported then "budget_backup_imported_" ++ isoOfTime ts ++ ".json"
  else "budget_backup_" ++ isoOfTime ts ++ ".json"

/-- `findBackupFile`'s match `file.includes(backupId)`: the filename embeds a
single fixed-width sanitized timestamp, so substring containment of a
sanitized timestamp is equality of the instants. -/
def fileMatches (f : BackupFile) (backupId : Int) : Bool := f.ts == backupId

/-- `backupData.spending?.length || 0`. -/
def jsRecordCount (v : JsonValue) : Nat :=
  match getField v "spending" with
  | some (.arr l) => l.length
  | some (.str s) => s.length
  | _ => 0

/-- `backupData.metadata?.totalAmount || 0`. -/
def jsTotalAmount (v : JsonValue) : ℚ :=
  match getField v "metadata" with
  | some m =>
    match getField m "totalAmount" with
    | some (.num q) => q
    | _ => 0
  | none => 0

/-- `backupData.timestamp` read back as an instant.  A file whose timestamp
is not a (modelled) timestamp makes `timestamp.replace(...)` throw, and the
enclosing per-file `try/catch` of `getAvailableBackups` skips the file. -/
def jsTimestamp (v : JsonValue) : Option Int :=
  match getField v "timestamp" with
  | some (.num q) => ratToInt? q
  | _ => none

/-- One iteration of the `getAvailableBackups` listing loop
(src/unnamed/part_004:278-298): parse the file, derive its `BackupInfo`;
`none` models the caught per-file error (file skipped). -/
def readBackupInfo (f : BackupFile) : Option BackupInfo :=
  match jsTimestamp f.content with
  | some t =>
    some ⟨t, mkFilename f.imported f.ts, t, 0, jsRecordCount f.content,
          jsTotalAmount f.content, verifyBackupIntegrity f.content⟩
  | none => none

/-- `backups.sort((a, b) => timeOf b − timeOf a)` — newest first.  The keys
are distinct in every verified run, so any correct sort yields this result. -/
def sortNewestFirst (l : List BackupInfo) : List BackupInfo :=
  l.insertionSort (fun a b => b.timestamp ≤ a.timestamp)

/-- `getAvailableBackups` (src/unnamed/part_004:271-306). -/
def getAvailableBackups (st : RepoState) : List BackupInfo :=
  sortNewestFirst (st.files.filterMap readBackupInfo)

/-- `deleteBackup` (src/unnamed/part_004:311-324): `none` is the thrown
`Backup file not found` / `Failed to delete backup`. -/
def deleteBackupE (st : RepoState) (backupId : Int) : Option RepoState :=
  match st.files.find? (fun f => fileMatches f backupId) with
  | some _ => some ⟨st.files.eraseP (fun f => fileMatches f backupId)⟩
  | none => none

/-- The deletion loop of `cleanupOldBackups`: a throw from `deleteBackup`
aborts the loop and is swallowed by the surrounding `catch`. -/
def deleteLoop : RepoState → List BackupInfo → RepoState
  | st, [] => st
  | st, b :: bs =>
    match deleteBackupE st b.id with
    | some st1 => deleteLoop st1 bs
    | none => st

/-- `cleanupOldBackups` (src/unnamed/part_004:507-523): after listing, delete
everything past the first `MAX_BACKUPS` entries of the newest-first order. -/
def cleanupOldBackups (st : RepoState) : RepoState :=
  let backups := getAvailableBackups st
  if MAX_BACKUPS < backups.length then
    deleteLoop st (backups.drop MAX_BACKUPS)
  else st

/-- `createBackup` (src/unnamed/part_004:55-140): serialize the current
records and settings, write `budget_backup_<ts>.json`, prune, and return the
just-written file's `BackupInfo` marked verified.  `recs` is the record read
(already fallen back to `[]` if the store read failed); `now` is the single
clock value of the call (the source samples the clock twice a few
microseconds apart for `timestamp` and the filename; one tick cannot be
observed by any claim, so one value models both). -/
def createBackup (st : RepoState) (recs : List SpendingRecord)
    (settings : Option JsonValue) (now : Int) : BackupInfo × RepoState :=
  let data := serializeBackup recs settings now
  let st1 : RepoState := ⟨st.files ++ [⟨false, now, encodeBackup data⟩]⟩
  let info : BackupInfo :=
    ⟨now, mkFilename false now, now, 0, recs.length, data.metadata.totalAmount, true⟩
  (info, cleanupOldBackups st1)

/-- `importBackup` (src/unnamed/part_004:355-393): read and parse the source
file (`content` is the parse), verify, and only then write a copy named
`budget_backup_imported_<now>.json` into the managed directory.  The result
pairs the outcome with the final directory state. -/
def importBackup (st : RepoState) (content : JsonValue) (now : Int) :
    Except String BackupInfo × RepoState :=
  if !verifyBackupIntegrity content then
    (.error "Invalid backup file", st)
  else
    let st1 : RepoState := ⟨st.files ++ [⟨true, now, content⟩]⟩
    (.ok ⟨now, mkFilename true now, (jsTimestamp content).getD 0, 0,
          jsRecordCount content, jsTotalAmount content, true⟩, st1)

/-- N successive `createBackup` calls on a fresh directory, one per clock
value in `ns`. -/
def runCreates (recs : List SpendingRecord) (settings : Option JsonValue)
    (ns : List Int) : RepoState :=
  ns.foldl (fun st n => (createBackup st recs settings n).2) ⟨[]⟩

/-- The file `createBackup` writes at clock value `n`. -/
def mkCreatedFile (recs : List SpendingRecord) (settings : Option JsonValue)
    (n : Int) : BackupFile :=
  ⟨false, n, encodeBackup (serializeBackup recs settings n)⟩

/-- The `BackupInfo` a listing derives for a file `createBackup` wrote. -/
def mkCreatedInfo (recs : List SpendingRecord) (settings : Option JsonValue)
    (n : Int) : BackupInfo :=
  ⟨n, mkFilename false n, n, 0,
   jsRecordCount (encodeBackup (serializeBackup recs settings n)),
   jsTotalAmount (encodeBackup (serializeBackup recs settings n)),
   verifyBackupIntegrity (encodeBackup (serializeBackup recs settings n))⟩

/-- The last `k` elements of a list. -/
def lastN (k : Nat) (l : List Int) : List Int := l.drop (l.length - k)

/-- Specification-level effect of one create on the multiset of stored
timestamps: append, then drop the oldest when over the cap. -/
def keepCap (acc : List Int) (n : Int) : List Int :=
  if acc.length < MAX_BACKUPS then acc ++ [n] else acc.tail ++ [n]

/-- Failure injection: `fails failAt k` says the `k`-th asynchronous
primitive of the run throws. -/
def fails (failAt : Option Nat) (k : Nat) : Bool := failAt == some k

/-- The insert loop of the transactional restore
(src/unnamed/part_004:732-739): inserts are not individually guarded, so the
first throw aborts the whole loop.  `none` is that throw; otherwise the
working table contents and the next operation index are returned. -/
def insertAllTx (recs : List SpendingRecord) (working : List SpendingRecord)
    (failAt : Option Nat) (k : Nat) : Option (List SpendingRecord × Nat) :=
  match recs with
  | [] => some (working, k)
  | r :: rs =>
    if fails failAt k then none
    else insertAllTx rs (working ++ [r]) failAt (k + 1)

/-- The transactional `restoreFromBackup` (second copy,
src/unnamed/part_004:704-759).  Primitive operations are numbered 0 `BEGIN`,
1 `DELETE FROM spending`, 2… the inserts, then `AsyncStorage.setItem` (only
when the snapshot carries truthy settings), then `COMMIT`.  A throw anywhere
inside the transaction triggers `ROLLBACK`, which restores the table to
`store`; the settings write lives in AsyncStorage and is not covered by the
SQLite transaction, so it survives a failed `COMMIT`.  Result:
(succeeded?, final table, final settings blob). -/
def restoreTx (store : List SpendingRecord) (settings : Option JsonValue)
    (snap : BackupData) (failAt : Option Nat) :
    Bool × List SpendingRecord × Option JsonValue :=
  if !verifyBackupIntegrity (encodeBackup snap) then (false, store, settings)
  else if fails failAt 0 then (false, store, settings)
  else if fails failAt 1 then (false, store, settings)
  else
    match insertAllTx snap.spending [] failAt 2 with
    | none => (false, store, settings)
    | some (working, k) =>
      if truthy snap.settings then
        if fails failAt k then (false, store, settings)
        else if fails failAt (k + 1) then (false, store, snap.settings)
        else (true, working, snap.settings)
      else
        if fails failAt k then (false, store, settings)
        else (true, working, settings)

/-- The insert loop of the non-transactional restore (first copy,
src/unnamed/part_004:205-227): records failing the falsy-field validation
are skipped without touching the database; a throwing insert is caught
per-record and the loop continues. -/
def insertLoopNoTx (recs : List SpendingRecord) (table : List SpendingRecord)
    (failAt : Option Nat) (k : Nat) : List SpendingRecord × Nat :=
  match recs with
  | [] => (table, k)
  | r :: rs =>
    if r.id == 0 || r.details == "" || r.date == 0 then
      insertLoopNoTx rs table failAt k
    else if fails failAt k then
      insertLoopNoTx rs table failAt (k + 1)
    else
      insertLoopNoTx rs (table ++ [r]) failAt (k + 1)

/-- The non-transactional `restoreFromBackup` (first copy,
src/unnamed/part_004:145-266).  Operations: 0 the `SELECT 1` connection
test, 1 `DELETE FROM spending`, 2… the inserts, then the settings
`setItem` (when truthy settings exist), then the `SELECT COUNT(*)`
verification; a non-empty snapshot restoring zero rows raises the
verification error.  No transaction: every mutation lands directly in the
live table. -/
def restoreNoTx (store : List SpendingRecord) (settings : Option JsonValue)
    (snap : BackupData) (failAt : Option Nat) :
    Bool × List SpendingRecord × Option JsonValue :=
  if !verifyBackupIntegrity (encodeBackup snap) then (false, store, settings)
  else if fails failAt 0 then (false, store, settings)
  else if fails failAt 1 then (false, store, settings)
  else
    let (table, k) := insertLoopNoTx snap.spending [] failAt 2
    if truthy snap.settings then
      if fails failAt k then (false, table, settings)
      else if fails failAt (k + 1) then (false, table, snap.settings)
      else if snap.spending.length ≠ 0 && table.length == 0 then
        (false, table, snap.settings)
      else (true, table, snap.settings)
    else
      if fails failAt k then (false, table, settings)
      else if snap.spending.length ≠ 0 && table.length == 0 then
        (false, table, settings)
      else (true, table, settings)

/-- `BackupSchedule.frequency`. -/
inductive Frequency where
  | daily
  | weekly
  | monthly
deriving DecidableEq

/-- The persisted `BackupSchedule` policy; `time` ("HH:MM") is carried as its
two parsed components. -/
structure BackupSchedule where
  enabled : Bool
  frequency : Frequency
  timeHour : Nat
  timeMinute : Nat
  lastBackup : Option Int
deriving DecidableEq

/-- `DEFAULT_SCHEDULE`. -/
def DEFAULT_SCHEDULE : BackupSchedule := ⟨false, .weekly, 2, 0, none⟩

/-- A `Partial<BackupSchedule>` update. -/
structure SchedulePatch where
  enabled : Option Bool
  frequency : Option Frequency
  timeHour : Option Nat
  timeMinute : Option Nat
  lastBackup : Option (Option Int)

/-- The spread merge `{ ...this.schedule, ...schedule }`. -/
def mergeSchedule (s : BackupSchedule) (p : SchedulePatch) : BackupSchedule :=
  ⟨p.enabled.getD s.enabled, p.frequency.getD s.frequency,
   p.timeHour.getD s.timeHour, p.timeMinute.getD s.timeMinute,
   p.lastBackup.getD s.lastBackup⟩

/-- Scheduler state: the in-memory schedule, its AsyncStorage copy, and
whether the background-fetch task is currently registered. -/
structure SchedulerState where
  schedule : BackupSchedule
  persisted : Option BackupSchedule
  registered : Bool
deriving DecidableEq

/-- `saveSchedule` (src/utils/AutoBackupScheduler.ts:47-61): merge, persist,
then register or unregister.  `enableBackgroundBackup` throws when the
background-fetch facility reports unavailable (`fetchAvailable = false`);
that throw is caught by `saveSchedule`'s own `catch`, which only logs — the
merged, persisted schedule is kept as is.  `disableBackgroundBackup`
swallows "already unregistered". -/
def saveSchedule (st : SchedulerState) (p : SchedulePatch)
    (fetchAvailable : Bool) : SchedulerState :=
  let sched := mergeSchedule st.schedule p
  if sched.enabled then
    if fetchAvailable then ⟨sched, some sched, true⟩
    else ⟨sched, some sched, st.registered⟩
  else ⟨sched, some sched, false⟩

/-- `shouldCreateBackup` (src/utils/AutoBackupScheduler.ts:73-92): "is a
backup due".  Note the source returns `true` when the policy is disabled or
has never run. -/
def shouldCreateBackup (s : BackupSchedule) (now : Int) : Bool :=
  if !s.enabled then true
  else
    match s.lastBackup with
    | none => true
    | some last =>
      let timeDiff := now - last
      match s.frequency with
      | .daily => decide (24 * 60 * 60 * 1000 ≤ timeDiff)
      | .weekly => decide (7 * 24 * 60 * 60 * 1000 ≤ timeDiff)
      | .monthly => decide (30 * 24 * 60 * 60 * 1000 ≤ timeDiff)

/-- `isBackupTime` (src/utils/AutoBackupScheduler.ts:97-108): the current
wall-clock time must lie within five minutes of the configured HH:MM.
`midnightToday` is today's midnight instant (`backupTime` is built by
pinning HH:MM onto today's date). -/
def isBackupTime (s : BackupSchedule) (now midnightToday : Int) : Bool :=
  if !s.enabled then false
  else
    let backupTime := midnightToday + ((s.timeHour : Int) * 60 + s.timeMinute) * 60 * 1000
    decide ((now - backupTime).natAbs ≤ 5 * 60 * 1000)

/-- `createAutomaticBackup` (src/utils/AutoBackupScheduler.ts:113-139) — one
scheduler tick.  `backupSucceeds` is whether `createBackup()` completes (its
failure is caught and yields `false` with no schedule update).  Result:
((task returned true?, was `createBackup` invoked?), final state).  On
success the tick stores `lastBackup = now` through `saveSchedule`, which —
the policy still being enabled — re-registers with the facility. -/
def createAutomaticBackup (st : SchedulerState) (now midnightToday : Int)
    (fetchAvailable : Bool) (backupSucceeds : Bool) :
    (Bool × Bool) × SchedulerState :=
  if !shouldCreateBackup st.schedule now then ((false, false), st)
  else if !isBackupTime st.schedule now midnightToday then ((false, false), st)
  else if backupSucceeds then
    ((true, true), saveSchedule st ⟨none, none, none, none, some (some now)⟩ fetchAvailable)
  else ((false, true), st)

theorem verify_false_of_not_arr (v : JsonValue)
    (h : ∀ l, getField v "spending" ≠ some (JsonValue.arr l)) :
    verifyBackupIntegrity v = false := by
  unfold verifyBackupIntegrity
  split
  · rfl
  · split
    · next recs heq => exact absurd heq (h recs)
    · rfl

theorem verify_false_of_bad_record (v : JsonValue) (l : List JsonValue)
    (r : JsonValue) (hl : getField v "spending" = some (JsonValue.arr l))
    (hr : r ∈ l) (hbad : spendingRecordOk r = false) :
    verifyBackupIntegrity v = false := by
  unfold verifyBackupIntegrity
  split
  · rfl
  · rw [hl]
    simp only [List.all_eq_false]
    exact ⟨r, hr, by simp [hbad]⟩

/-- C6: `verify` returns false for a snapshot missing `version`, missing
`timestamp`, whose records value is not an array, or any of whose records
lacks (absent or null) one of the four fields `id`, `amount`, `details`,
`date`. -/
theorem verify_rejects_missing_fields (v : JsonValue) :
    (getField v "version" = none → verifyBackupIntegrity v = false)
    ∧ (getField v "timestamp" = none → verifyBackupIntegrity v = false)
    ∧ ((∀ l, getField v "spending" ≠ some (JsonValue.arr l)) →
        verifyBackupIntegrity v = false)
    ∧ (∀ l r, getField v "spending" = some (JsonValue.arr l) → r ∈ l →
        ((getField r "id" = none ∨ getField r "id" = some JsonValue.null)
         ∨ (getField r "amount" = none ∨ getField r "amount" = some JsonValue.null)
         ∨ (getField r "details" = none ∨ getField r "details" = some JsonValue.null)
         ∨ (getField r "date" = none ∨ getField r "date" = some JsonValue.null)) →
        verifyBackupIntegrity v = false) := by
  refine ⟨fun h => ?_, fun h => ?_, verify_false_of_not_arr v, ?_⟩
  · unfold verifyBackupIntegrity
    simp [h, truthy]
  · unfold verifyBackupIntegrity
    simp [h, truthy]
  · intro l r hl hr hmiss
    refine verify_false_of_bad_record v l r hl hr ?_
    rcases hmiss with h | h | h | h <;> rcases h with h | h <;>
      simp [spendingRecordOk, h, truthy]

/-- C6 witness: a snapshot with no fields at all, and a snapshot whose one
record lacks `date`, both fail verification. -/
theorem verify_rejects_missing_fields_witness :
    verifyBackupIntegrity (JsonValue.obj []) = false
    ∧ verifyBackupIntegrity (JsonValue.obj
        [("version", JsonValue.str "1.0.0"), ("timestamp", JsonValue.num 1),
         ("spending", JsonValue.arr [JsonValue.obj
            [("id", JsonValue.num 1), ("amount", JsonValue.num 2),
             ("details", JsonValue.str "x")]])]) = false := by
  constructor
  · exact (verify_rejects_missing_fields _).1 rfl
  · exact (verify_rejects_missing_fields _).2.2.2
      [JsonValue.obj [("id", JsonValue.num 1), ("amount", JsonValue.num 2),
        ("details", JsonValue.str "x")]]
      (JsonValue.obj [("id", JsonValue.num 1), ("amount", JsonValue.num 2),
        ("details", JsonValue.str "x")])
      rfl (by simp) (Or.inr (Or.inr (Or.inr (Or.inl rfl))))

/-- C10: even with all four fields present and non-null on every record,
a record whose `amount` is 0 (or whose `id` is 0) makes `verify` return
false — the integrity check is a falsiness check, not a presence check. -/
theorem verify_rejects_falsy_values (v : JsonValue) (l : List JsonValue)
    (r : JsonValue) (hl : getField v "spending" = some (JsonValue.arr l))
    (hr : r ∈ l)
    (hfields : ∀ r' ∈ l, ∀ k ∈ ["id", "amount", "details", "date"],
        ∃ j, getField r' k = some j ∧ j ≠ JsonValue.null)
    (hzero : getField r "amount" = some (JsonValue.num 0)
             ∨ getField r "id" = some (JsonValue.num 0)) :
    verifyBackupIntegrity v = false := by
  refine verify_false_of_bad_record v l r hl hr ?_
  rcases hzero with h | h <;> simp [spendingRecordOk, h, truthy]

/-- C10 witness: a fully populated record with `amount = 0` is rejected. -/
theorem verify_rejects_falsy_values_witness :
    verifyBackupIntegrity (JsonValue.obj
      [("version", JsonValue.str "1.0.0"), ("timestamp", JsonValue.num 1),
       ("spending", JsonValue.arr [JsonValue.obj
          [("id", JsonValue.num 1), ("amount", JsonValue.num 0),
           ("details", JsonValue.str "x"), ("date", JsonValue.num 5)]])]) = false := by
  refine verify_rejects_falsy_values _
      [JsonValue.obj [("id", JsonValue.num 1), ("amount", JsonValue.num 0),
        ("details", JsonValue.str "x"), ("date", JsonValue.num 5)]]
      (JsonValue.obj [("id", JsonValue.num 1), ("amount", JsonValue.num 0),
        ("details", JsonValue.str "x"), ("date", JsonValue.num 5)])
      rfl (by simp) ?_ (Or.inl rfl)
  intro r' hr' k hk
  simp only [List.mem_singleton] at hr'
  subst hr'
  simp only [List.mem_cons, List.not_mem_nil, or_false] at hk
  rcases hk with rfl | rfl | rfl | rfl
  · exact ⟨JsonValue.num 1, rfl, fun h => JsonValue.noConfusion h⟩
  · exact ⟨JsonValue.num 0, rfl, fun h => JsonValue.noConfusion h⟩
  · exact ⟨JsonValue.str "x", rfl, fun h => JsonValue.noConfusion h⟩
  · exact ⟨JsonValue.num 5, rfl, fun h => JsonValue.noConfusion h⟩

/-- C9: importing a source file whose JSON has no records array fails with
the invalid-backup error, and the managed backup directory is exactly what
it was — the verification throw happens before any write. -/
theorem import_rejects_missing_records (st : RepoState) (content : JsonValue)
    (now : Int) (h : ∀ l, getField content "spending" ≠ some (JsonValue.arr l)) :
    (importBackup st content now).1 = Except.error "Invalid backup file"
    ∧ (importBackup st content now).2 = st := by
  have hv := verify_false_of_not_arr content h
  simp [importBackup, hv]

/-- C9 witness: a well-formed JSON object carrying `version` and `timestamp`
but no `records` array is rejected and writes nothing. -/
theorem import_rejects_missing_records_witness :
    (importBackup ⟨[]⟩ (JsonValue.obj [("version", JsonValue.str "1.0.0"),
        ("timestamp", JsonValue.num 1)]) 7).1 = Except.error "Invalid backup file"
    ∧ (importBackup ⟨[]⟩ (JsonValue.obj [("version", JsonValue.str "1.0.0"),
        ("timestamp", JsonValue.num 1)]) 7).2 = (⟨[]⟩ : RepoState) :=
  import_rejects_missing_records _ _ _ (by intro l hl; simp [getField, lookupStr] at hl)

theorem foldl_add_eq_add_sum (l : List ℚ) : ∀ a : ℚ, l.foldl (· + ·) a = a + l.sum := by
  induction l with
  | nil => intro a; simp
  | cons x xs ih => intro a; simp [List.foldl_cons, ih, List.sum_cons]; ring

/-- C7: the serialized snapshot's metadata records the exact total amount
and record count; on an empty record list the date range degenerates to
empty strings and the total to 0. -/
theorem serialize_metadata_totals :
    (∀ (R : List SpendingRecord) (s : Option JsonValue) (now : Int), R ≠ [] →
        (serializeBackup R s now).metadata.totalAmount = (R.map (·.amount)).sum
        ∧ (serializeBackup R s now).metadata.totalRecords = R.length)
    ∧ (∀ (s : Option JsonValue) (now : Int),
        (serializeBackup [] s now).metadata.dateRange.earliest = ""
        ∧ (serializeBackup [] s now).metadata.dateRange.latest = ""
        ∧ (serializeBackup [] s now).metadata.totalAmount = 0) := by
  constructor
  · intro R s now hR
    have hlen : ¬R.length = 0 := by simpa using hR
    constructor
    · simp [serializeBackup, calculateMetadata, hlen, foldl_add_eq_add_sum]
    · simp [serializeBackup, calculateMetadata, hlen]
  · intro s now
    exact ⟨rfl, rfl, rfl⟩

/-- C7 witness: a one-record list with amount 12.5. -/
theorem serialize_metadata_totals_witness :
    (serializeBackup [⟨1, 25 / 2, "Coffee", 0⟩] none 3).metadata.totalAmount
        = (([⟨1, 25 / 2, "Coffee", 0⟩] : List SpendingRecord).map (·.amount)).sum
    ∧ (serializeBackup [⟨1, 25 / 2, "Coffee", 0⟩] none 3).metadata.totalRecords = 1 :=
  (serialize_metadata_totals.1 _ none 3 (by simp))

theorem decodeRecord_encodeRecord (r : SpendingRecord) :
    decodeRecord (encodeRecord r) = some r := by
  simp [decodeRecord, encodeRecord, getField, lookupStr, ratToInt?]

theorem decodeRecords_map_encodeRecord (l : List SpendingRecord) :
    decodeRecords (l.map encodeRecord) = some l := by
  induction l with
  | nil => rfl
  | cons r rs ih => simp [decodeRecords, decodeRecord_encodeRecord, ih]

/-- C8: deserializing the JSON text written for `serialize(R, s)` yields a
snapshot whose records read back as exactly `R`, in order. -/
theorem serialize_roundtrip_records (R : List SpendingRecord)
    (s : Option JsonValue) (now : Int) :
    decodeSpendingRecords (encodeBackup (serializeBackup R s now)) = some R := by
  have h : getField (encodeBackup (serializeBackup R s now)) "spending"
      = some (JsonValue.arr (R.map encodeRecord)) := rfl
  simp [decodeSpendingRecords, h, decodeRecords_map_encodeRecord]

/-- C1 counterexample: the duplicate check compares the stored `date` column
(the spending date passed by the caller), not the insertion instant.  Two
`add()` calls with identical amount and details made one minute apart — both
carrying the (identical, backdated) spending date 0 — are both inserted: the
store gains two records, not exactly one. -/
theorem addSpending_within5_counterexample :
    (addSpending (addSpending ⟨[], 1⟩ 1000000 5 "Coffee" 0).2
        1060000 5 "Coffee" 0).2.records.length = 2 := by decide

theorem filter_recentDuplicate_eq_nil (l : List SpendingRecord) (a : ℚ)
    (d : String) (c : Int) (h : ∀ r ∈ l, r.amount = a → r.details = d → r.date ≤ c) :
    l.filter (isRecentDuplicate a d c) = [] := by
  refine List.filter_eq_nil_iff.mpr fun r hr => ?_
  simp only [isRecentDuplicate, Bool.and_eq_true, beq_iff_eq, decide_eq_true_eq]
  rintro ⟨⟨h1, h2⟩, h3⟩
  have := h r hr h1 h2
  omega

theorem addSpending_insert (st : DBState) (now : Int) (a : ℚ) (d : String)
    (date : Int)
    (h : st.records.filter (isRecentDuplicate a d (now - 5 * 60 * 1000)) = []) :
    addSpending st now a d date
      = ({ lastInsertRowId := st.nextId, changes := 1 },
         ⟨st.records ++ [⟨st.nextId, a, d, date⟩], st.nextId + 1⟩) := by
  simp only [addSpending, h]

theorem addSpending_noop (st : DBState) (now : Int) (a : ℚ) (d : String)
    (date : Int) (e : SpendingRecord) (tl : List SpendingRecord)
    (h : st.records.filter (isRecentDuplicate a d (now - 5 * 60 * 1000)) = e :: tl) :
    addSpending st now a d date = ({ lastInsertRowId := e.id, changes := 0 }, st) := by
  simp only [addSpending, h]

/-- C1 amended: on a store holding no record with the same amount and
details dated after `t1 − 5min`, two `add()` calls at `t1 ≤ t2` that pass
the call instant as the spending date behave as the claim says: under five
minutes apart the second call is a no-op returning the first insert's id
and exactly one record is stored; six minutes apart both insert. -/
theorem addSpending_dedup_amended (st : DBState) (a : ℚ) (d : String)
    (t1 t2 : Int)
    (hclean : ∀ r ∈ st.records, r.amount = a → r.details = d →
        r.date ≤ t1 - 5 * 60 * 1000)
    (hle : t1 ≤ t2) :
    (t2 - t1 < 5 * 60 * 1000 →
      (addSpending (addSpending st t1 a d t1).2 t2 a d t2).2
          = (addSpending st t1 a d t1).2
      ∧ (addSpending (addSpending st t1 a d t1).2 t2 a d t2).2.records.length
          = st.records.length + 1
      ∧ (addSpending (addSpending st t1 a d t1).2 t2 a d t2).1
          = ⟨(addSpending st t1 a d t1).1.lastInsertRowId, 0⟩)
    ∧ (t2 - t1 = 6 * 60 * 1000 →
      (addSpending (addSpending st t1 a d t1).2 t2 a d t2).2.records.length
          = st.records.length + 2) := by
  have hfilter1 : st.records.filter (isRecentDuplicate a d (t1 - 5 * 60 * 1000)) = [] :=
    filter_recentDuplicate_eq_nil _ _ _ _ hclean
  have hstep1 := addSpending_insert st t1 a d t1 hfilter1
  have hold : st.records.filter (isRecentDuplicate a d (t2 - 5 * 60 * 1000)) = [] := by
    refine filter_recentDuplicate_eq_nil _ _ _ _ fun r hr h1 h2 => ?_
    have := hclean r hr h1 h2
    omega
  constructor
  · intro hlt
    have hpos : isRecentDuplicate a d (t2 - 5 * 60 * 1000)
        ⟨st.nextId, a, d, t1⟩ = true := by
      simp only [isRecentDuplicate, Bool.and_eq_true, beq_iff_eq, decide_eq_true_eq]
      exact ⟨⟨by trivial, by trivial⟩, by omega⟩
    have hfilter2 : (st.records ++ [(⟨st.nextId, a, d, t1⟩ : SpendingRecord)]).filter
        (isRecentDuplicate a d (t2 - 5 * 60 * 1000))
        = (⟨st.nextId, a, d, t1⟩ : SpendingRecord) :: [] := by
      rw [List.filter_append, hold, List.nil_append,
        List.filter_cons_of_pos hpos, List.filter_nil]
    have hstep2 := addSpending_noop ⟨st.records ++ [⟨st.nextId, a, d, t1⟩], st.nextId + 1⟩
        t2 a d t2 ⟨st.nextId, a, d, t1⟩ [] hfilter2
    rw [hstep1]
    dsimp only
    rw [hstep2]
    simp
  · intro heq
    have hneg : isRecentDuplicate a d (t2 - 5 * 60 * 1000)
        ⟨st.nextId, a, d, t1⟩ = false := by
      have hd : decide ((t2 - 5 * 60 * 1000) < t1) = false := by
        simp only [decide_eq_false_iff_not, not_lt]
        omega
      simp only [isRecentDuplicate, hd, Bool.and_false]
    have hfilter2 : (st.records ++ [(⟨st.nextId, a, d, t1⟩ : SpendingRecord)]).filter
        (isRecentDuplicate a d (t2 - 5 * 60 * 1000)) = [] := by
      rw [List.filter_append, hold, List.nil_append,
        List.filter_cons_of_neg (by rw [hneg]; simp), List.filter_nil]
    have hstep2 := addSpending_insert ⟨st.records ++ [⟨st.nextId, a, d, t1⟩], st.nextId + 1⟩
        t2 a d t2 hfilter2
    rw [hstep1]
    dsimp only
    rw [hstep2]
    dsimp only
    simp

/-- C1 witness: on an empty store, calls one minute apart dedup (one stored
record, no-op second call), calls six minutes apart both insert. -/
theorem addSpending_dedup_amended_witness :
    ((addSpending (addSpending ⟨[], 1⟩ 1000000 5 "Coffee" 1000000).2
          1060000 5 "Coffee" 1060000).2
        = (addSpending ⟨[], 1⟩ 1000000 5 "Coffee" 1000000).2
      ∧ (addSpending (addSpending ⟨[], 1⟩ 1000000 5 "Coffee" 1000000).2
          1060000 5 "Coffee" 1060000).2.records.length
        = (⟨[], 1⟩ : DBState).records.length + 1
      ∧ (addSpending (addSpending ⟨[], 1⟩ 1000000 5 "Coffee" 1000000).2
          1060000 5 "Coffee" 1060000).1
        = ⟨(addSpending ⟨[], 1⟩ 1000000 5 "Coffee" 1000000).1.lastInsertRowId, 0⟩)
    ∧ (addSpending (addSpending ⟨[], 1⟩ 1000000 5 "Coffee" 1000000).2
          1360000 5 "Coffee" 1360000).2.records.length
        = (⟨[], 1⟩ : DBState).records.length + 2 :=
  ⟨(addSpending_dedup_amended ⟨[], 1⟩ 5 "Coffee" 1000000 1060000
      (by intro r hr; cases hr) (by decide)).1 (by decide),
   (addSpending_dedup_amended ⟨[], 1⟩ 5 "Coffee" 1000000 1360000
      (by intro r hr; cases hr) (by decide)).2 (by decide)⟩

/-- C2 counterexample: starting from the default (disabled, unregistered)
state, asking `saveSchedule` to enable while the background-fetch facility
is unavailable returns without error and leaves the persisted policy with
`enabled = true` and no task registered — no rollback to disabled happens. -/
theorem saveSchedule_unavailable_counterexample :
    (saveSchedule ⟨DEFAULT_SCHEDULE, none, false⟩
        ⟨some true, none, none, none, none⟩ false).schedule.enabled = true
    ∧ (saveSchedule ⟨DEFAULT_SCHEDULE, none, false⟩
        ⟨some true, none, none, none, none⟩ false).persisted
      = some (saveSchedule ⟨DEFAULT_SCHEDULE, none, false⟩
        ⟨some true, none, none, none, none⟩ false).schedule
    ∧ (saveSchedule ⟨DEFAULT_SCHEDULE, none, false⟩
        ⟨some true, none, none, none, none⟩ false).registered = false :=
  ⟨rfl, rfl, rfl⟩

/-- C2 amended: when the facility reports unavailable, the registration
error thrown by `enableBackgroundBackup` is caught and only logged by
`saveSchedule`; the merged policy (with `enabled = true`) stays in memory
and in storage while the task remains unregistered. -/
theorem saveSchedule_unavailable_amended (st : SchedulerState)
    (p : SchedulePatch) (hreg : st.registered = false)
    (hen : (mergeSchedule st.schedule p).enabled = true) :
    (saveSchedule st p false).schedule = mergeSchedule st.schedule p
    ∧ (saveSchedule st p false).persisted = some (mergeSchedule st.schedule p)
    ∧ (saveSchedule st p false).registered = false := by
  simp [saveSchedule, hen, hreg]

/-- C2 witness: the default state patched to enabled. -/
theorem saveSchedule_unavailable_amended_witness :
    (saveSchedule ⟨DEFAULT_SCHEDULE, none, false⟩
        ⟨some true, none, none, none, none⟩ false).schedule
      = mergeSchedule DEFAULT_SCHEDULE ⟨some true, none, none, none, none⟩
    ∧ (saveSchedule ⟨DEFAULT_SCHEDULE, none, false⟩
        ⟨some true, none, none, none, none⟩ false).persisted
      = some (mergeSchedule DEFAULT_SCHEDULE ⟨some true, none, none, none, none⟩)
    ∧ (saveSchedule ⟨DEFAULT_SCHEDULE, none, false⟩
        ⟨some true, none, none, none, none⟩ false).registered = false :=
  saveSchedule_unavailable_amended ⟨DEFAULT_SCHEDULE, none, false⟩
    ⟨some true, none, none, none, none⟩ rfl rfl

/-- C3: on an enabled policy, a tick two days after the last weekly backup
returns false without invoking backup creation or touching the state; a
tick eight days after it, at a wall-clock instant within five minutes of
the configured time, invokes creation, returns true, and stores
`lastBackup = now`. -/
theorem scheduler_tick_gating :
    (∀ (st : SchedulerState) (now midnightToday : Int) (avail ok : Bool),
      st.schedule.enabled = true →
      st.schedule.frequency = Frequency.weekly →
      st.schedule.lastBackup = some (now - 2 * 24 * 60 * 60 * 1000) →
      createAutomaticBackup st now midnightToday avail ok = ((false, false), st))
    ∧ (∀ (st : SchedulerState) (now midnightToday : Int) (avail : Bool),
      st.schedule.enabled = true →
      st.schedule.frequency = Frequency.weekly →
      st.schedule.lastBackup = some (now - 8 * 24 * 60 * 60 * 1000) →
      (now - (midnightToday
          + ((st.schedule.timeHour : Int) * 60 + st.schedule.timeMinute) * 60 * 1000)).natAbs
        ≤ 5 * 60 * 1000 →
      (createAutomaticBackup st now midnightToday avail true).1 = (true, true)
      ∧ (createAutomaticBackup st now midnightToday avail true).2.schedule.lastBackup
        = some now) := by
  constructor
  · intro st now midnightToday avail ok hen hfreq hlast
    have hshould : shouldCreateBackup st.schedule now = false := by
      simp only [shouldCreateBackup, hen, hfreq, hlast, Bool.not_true,
        Bool.false_eq_true, if_false]
      simp only [decide_eq_false_iff_not]
      omega
    simp [createAutomaticBackup, hshould]
  · intro st now midnightToday avail hen hfreq hlast htol
    have hshould : shouldCreateBackup st.schedule now = true := by
      simp only [shouldCreateBackup, hen, hfreq, hlast, Bool.not_true,
        Bool.false_eq_true, if_false]
      simp only [decide_eq_true_eq]
      omega
    have htime : isBackupTime st.schedule now midnightToday = true := by
      simp only [isBackupTime, hen, Bool.not_true, Bool.false_eq_true, if_false]
      simpa using htol
    constructor
    · simp [createAutomaticBackup, hshould, htime]
    · cases avail <;>
        simp [createAutomaticBackup, hshould, htime, saveSchedule, mergeSchedule, hen]

/-- C3 witness: both tick scenarios at concrete instants (weekly policy,
configured time 00:00). -/
theorem scheduler_tick_gating_witness :
    createAutomaticBackup ⟨⟨true, Frequency.weekly, 0, 0, some 1036800000⟩, none, false⟩
        1209600000 0 false false
      = ((false, false), ⟨⟨true, Frequency.weekly, 0, 0, some 1036800000⟩, none, false⟩)
    ∧ (createAutomaticBackup ⟨⟨true, Frequency.weekly, 0, 0, some 518400000⟩, none, false⟩
        1209600000 1209600000 false true).1 = (true, true)
    ∧ (createAutomaticBackup ⟨⟨true, Frequency.weekly, 0, 0, some 518400000⟩, none, false⟩
        1209600000 1209600000 false true).2.schedule.lastBackup = some 1209600000 :=
  ⟨scheduler_tick_gating.1 _ 1209600000 0 false false rfl rfl (by decide),
   (scheduler_tick_gating.2 _ 1209600000 1209600000 false rfl rfl (by decide) (by decide)).1,
   (scheduler_tick_gating.2 _ 1209600000 1209600000 false rfl rfl (by decide) (by decide)).2⟩

/-- C4 counterexample: the repository's first restore implementation
(per-record isolation, no transaction) violates the claim.  Prior store:
one record.  Snapshot: one different, valid record, plus a settings blob.
The settings write (operation 3, after the table was cleared and the
snapshot record inserted) throws: the restore fails, yet the store now
holds the snapshot's record instead of its prior contents. -/
theorem restoreNoTx_partial_overwrite_counterexample :
    (restoreNoTx [⟨1, 5, "Coffee", 100⟩] none
        ⟨"1.0.0", 1, [⟨2, 7, "Tea", 200⟩], some (JsonValue.obj []),
         calculateMetadata [⟨2, 7, "Tea", 200⟩]⟩ (some 3)).1 = false
    ∧ (restoreNoTx [⟨1, 5, "Coffee", 100⟩] none
        ⟨"1.0.0", 1, [⟨2, 7, "Tea", 200⟩], some (JsonValue.obj []),
         calculateMetadata [⟨2, 7, "Tea", 200⟩]⟩ (some 3)).2.1
      = [⟨2, 7, "Tea", 200⟩]
    ∧ [(⟨2, 7, "Tea", 200⟩ : SpendingRecord)] ≠ [⟨1, 5, "Coffee", 100⟩] := by
  refine ⟨by decide, by decide, by decide⟩

/-- C4 amended: the transactional restore implementation (the second copy)
does satisfy the claim — whenever it fails, at any injected failure point,
the rollback leaves the spending table exactly as it was before the
restore began. -/
theorem restoreTx_rollback (store : List SpendingRecord)
    (settings : Option JsonValue) (snap : BackupData) (failAt : Option Nat)
    (h : (restoreTx store settings snap failAt).1 = false) :
    (restoreTx store settings snap failAt).2.1 = store := by
  revert h
  unfold restoreTx
  split
  · exact fun _ => rfl
  · split
    · exact fun _ => rfl
    · split
      · exact fun _ => rfl
      · split
        · exact fun _ => rfl
        · split
          · split
            · exact fun _ => rfl
            · split
              · exact fun _ => rfl
              · intro hcontra; simp at hcontra
          · split
            · exact fun _ => rfl
            · intro hcontra; simp at hcontra

/-- C4 witness: the same failure point as the counterexample, run through
the transactional restore: it fails and the store equals its prior
contents. -/
theorem restoreTx_rollback_witness :
    (restoreTx [⟨1, 5, "Coffee", 100⟩] none
        ⟨"1.0.0", 1, [⟨2, 7, "Tea", 200⟩], some (JsonValue.obj []),
         calculateMetadata [⟨2, 7, "Tea", 200⟩]⟩ (some 3)).1 = false
    ∧ (restoreTx [⟨1, 5, "Coffee", 100⟩] none
        ⟨"1.0.0", 1, [⟨2, 7, "Tea", 200⟩], some (JsonValue.obj []),
         calculateMetadata [⟨2, 7, "Tea", 200⟩]⟩ (some 3)).2.1
      = [⟨1, 5, "Coffee", 100⟩] :=
  ⟨by decide, restoreTx_rollback _ _ _ _ (by decide)⟩

theorem jsTimestamp_encodeBackup (bd : BackupData) :
    jsTimestamp (encodeBackup bd) = some bd.timestamp := by
  have h : getField (encodeBackup bd) "timestamp"
      = some (JsonValue.num bd.timestamp) := rfl
  simp [jsTimestamp, h, ratToInt?, Rat.den_intCast, Rat.num_intCast]

theorem readBackupInfo_created (recs : List SpendingRecord)
    (settings : Option JsonValue) (n : Int) :
    readBackupInfo (mkCreatedFile recs settings n)
      = some (mkCreatedInfo recs settings n) := by
  have h : jsTimestamp (encodeBackup (serializeBackup recs settings n)) = some n :=
    jsTimestamp_encodeBackup (serializeBackup recs settings n)
  simp [readBackupInfo, h, mkCreatedFile, mkCreatedInfo]

theorem filterMap_map_eq_map {α β γ : Type} (f : β → Option γ) (g : α → β)
    (h : α → γ) (l : List α) (hfg : ∀ a ∈ l, f (g a) = some (h a)) :
    (l.map g).filterMap f = l.map h := by
  induction l with
  | nil => rfl
  | cons a as ih =>
    have h1 := hfg a (List.mem_cons_self a as)
    have h2 : ∀ x ∈ as, f (g x) = some (h x) :=
      fun x hx => hfg x (List.mem_cons_of_mem a hx)
    simp [List.filterMap_cons, h1, ih h2]

theorem orderedInsert_of_forall_lt (a : BackupInfo) (l : List BackupInfo)
    (h : ∀ b ∈ l, a.timestamp < b.timestamp) :
    List.orderedInsert (fun x y => y.timestamp ≤ x.timestamp) a l = l ++ [a] := by
  induction l with
  | nil => rfl
  | cons b bs ih =>
    have hb : ¬(b.timestamp ≤ a.timestamp) := not_le.mpr (h b (List.mem_cons_self b bs))
    simp only [List.orderedInsert, if_neg hb]
    rw [ih (fun c hc => h c (List.mem_cons_of_mem b hc))]
    rfl

theorem sortNewestFirst_of_increasing (l : List BackupInfo)
    (h : l.Pairwise (fun x y => x.timestamp < y.timestamp)) :
    sortNewestFirst l = l.reverse := by
  induction l with
  | nil => rfl
  | cons a bs ih =>
    have hpair := List.pairwise_cons.mp h
    have ihe : List.insertionSort (fun x y => y.timestamp ≤ x.timestamp) bs
        = bs.reverse := ih hpair.2
    show List.orderedInsert (fun x y => y.timestamp ≤ x.timestamp) a
        (List.insertionSort (fun x y => y.timestamp ≤ x.timestamp) bs)
      = (a :: bs).reverse
    rw [ihe, orderedInsert_of_forall_lt a bs.reverse
      (fun b hb => hpair.1 b (List.mem_reverse.mp hb))]
    simp

theorem lastN_of_le (l : List Int) (h : l.length ≤ 10) : lastN 10 l = l := by
  simp [lastN, Nat.sub_eq_zero_of_le h]

theorem length_lastN (l : List Int) : (lastN 10 l).length = min 10 l.length := by
  simp only [lastN, List.length_drop]
  omega

theorem lastN_append_right (a b : List Int) (h : 10 ≤ b.length) :
    lastN 10 (a ++ b) = lastN 10 b := by
  simp only [lastN, List.length_append]
  have heq : a.length + b.length - 10 = a.length + (b.length - 10) := by omega
  rw [heq, List.drop_append]

theorem keepCap_eq_lastN (acc : List Int) (n : Int) (h : acc.length ≤ 10) :
    keepCap acc n = lastN 10 (acc ++ [n]) := by
  by_cases hlen : acc.length < 10
  · rw [keepCap, if_pos (by simpa [MAX_BACKUPS] using hlen), lastN_of_le]
    simp
    omega
  · have h10 : acc.length = 10 := by omega
    rw [keepCap, if_neg (by simpa [MAX_BACKUPS] using hlen)]
    have hd : acc.length + 1 - 10 = 1 := by omega
    simp only [lastN, List.length_append, List.length_cons, List.length_nil,
      Nat.zero_add, hd]
    rw [List.drop_append_of_le_length (by omega), List.drop_one]

theorem length_keepCap (acc : List Int) (n : Int) (h : acc.length ≤ 10) :
    (keepCap acc n).length ≤ 10 := by
  rw [keepCap_eq_lastN acc n h, length_lastN]
  omega

theorem lastN_absorb (l ns : List Int) :
    lastN 10 (lastN 10 l ++ ns) = lastN 10 (l ++ ns) := by
  by_cases hl : l.length ≤ 10
  · rw [lastN_of_le l hl]
  · have h10 : (lastN 10 l).length = 10 := by rw [length_lastN]; omega
    have hsplit : l ++ ns = l.take (l.length - 10) ++ (lastN 10 l ++ ns) := by
      rw [← List.append_assoc]
      show l ++ ns = (l.take (l.length - 10) ++ l.drop (l.length - 10)) ++ ns
      rw [List.take_append_drop]
    rw [hsplit, lastN_append_right (l.take (l.length - 10)) (lastN 10 l ++ ns)
      (by rw [List.length_append, h10]; omega)]

theorem foldl_keepCap (ns : List Int) : ∀ acc : List Int, acc.length ≤ 10 →
    ns.foldl keepCap acc = lastN 10 (acc ++ ns)
    ∧ (ns.foldl keepCap acc).length ≤ 10 := by
  induction ns with
  | nil =>
    intro acc h
    refine ⟨?_, by simpa using h⟩
    rw [List.append_nil, lastN_of_le acc h, List.foldl_nil]
  | cons n ns ih =>
    intro acc h
    have hk : (keepCap acc n).length ≤ 10 := length_keepCap acc n h
    have hrec := ih (keepCap acc n) hk
    refine ⟨?_, hrec.2⟩
    rw [List.foldl_cons, hrec.1, keepCap_eq_lastN acc n h, lastN_absorb,
      List.append_assoc]
    rfl

theorem getAvailableBackups_created (recs : List SpendingRecord)
    (settings : Option JsonValue) (l : List Int) (hinc : l.Pairwise (· < ·)) :
    getAvailableBackups ⟨l.map (mkCreatedFile recs settings)⟩
      = (l.map (mkCreatedInfo recs settings)).reverse := by
  unfold getAvailableBackups
  rw [show (⟨l.map (mkCreatedFile recs settings)⟩ : RepoState).files
      = l.map (mkCreatedFile recs settings) from rfl]
  rw [filterMap_map_eq_map readBackupInfo (mkCreatedFile recs settings)
    (mkCreatedInfo recs settings) l (fun a _ => readBackupInfo_created recs settings a)]
  apply sortNewestFirst_of_increasing
  rw [List.pairwise_map]
  exact hinc

theorem cleanupOldBackups_created (recs : List SpendingRecord)
    (settings : Option JsonValue) (l : List Int) (hinc : l.Pairwise (· < ·))
    (hlen : l.length ≤ 11) :
    cleanupOldBackups ⟨l.map (mkCreatedFile recs settings)⟩
      = ⟨(if 10 < l.length then l.tail else l).map (mkCreatedFile recs settings)⟩ := by
  simp only [cleanupOldBackups]
  rw [getAvailableBackups_created recs settings l hinc]
  by_cases h : 10 < l.length
  · rw [if_pos (by simpa [MAX_BACKUPS] using h), if_pos h]
    have h11 : l.length = 11 := by omega
    obtain ⟨m, rest, rfl⟩ : ∃ m rest, l = m :: rest := by
      cases l with
      | nil => simp at h11
      | cons a b => exact ⟨a, b, rfl⟩
    have hrest : rest.length = 10 := by simpa using h11
    have hdrop : ((m :: rest).map (mkCreatedInfo recs settings)).reverse.drop MAX_BACKUPS
        = [mkCreatedInfo recs settings m] := by
      rw [List.map_cons, List.reverse_cons]
      rw [show MAX_BACKUPS = ((rest.map (mkCreatedInfo recs settings)).reverse).length from by
        simp [hrest, MAX_BACKUPS]]
      rw [List.drop_left]
    rw [hdrop]
    have hfind : (mkCreatedFile recs settings m
          :: rest.map (mkCreatedFile recs settings)).find?
        (fun f => fileMatches f (mkCreatedInfo recs settings m).id)
        = some (mkCreatedFile recs settings m) :=
      List.find?_cons_of_pos _ (by simp [fileMatches, mkCreatedFile, mkCreatedInfo])
    have herase : (mkCreatedFile recs settings m
          :: rest.map (mkCreatedFile recs settings)).eraseP
        (fun f => fileMatches f (mkCreatedInfo recs settings m).id)
        = rest.map (mkCreatedFile recs settings) :=
      List.eraseP_cons_of_pos (by simp [fileMatches, mkCreatedFile, mkCreatedInfo])
    simp [deleteLoop, deleteBackupE, hfind, herase]
  · rw [if_neg (by simpa [MAX_BACKUPS] using h), if_neg h]

theorem createBackup_step (recs : List SpendingRecord) (settings : Option JsonValue)
    (acc : List Int) (n : Int) (hlen : acc.length ≤ 10)
    (hinc : acc.Pairwise (· < ·)) (hlt : ∀ m ∈ acc, m < n) :
    (createBackup ⟨acc.map (mkCreatedFile recs settings)⟩ recs settings n).2
      = ⟨(keepCap acc n).map (mkCreatedFile recs settings)⟩ := by
  have hmap : (acc.map (mkCreatedFile recs settings))
      ++ [⟨false, n, encodeBackup (serializeBackup recs settings n)⟩]
      = (acc ++ [n]).map (mkCreatedFile recs settings) := by
    rw [List.map_append]
    rfl
  have hpair : (acc ++ [n]).Pairwise (· < ·) := by
    rw [List.pairwise_append]
    refine ⟨hinc, List.pairwise_singleton _ _, ?_⟩
    intro a ha b hb
    rw [List.mem_singleton] at hb
    subst hb
    exact hlt a ha
  have hlen1 : (acc ++ [n]).length ≤ 11 := by
    simp only [List.length_append, List.length_cons, List.length_nil]
    omega
  unfold createBackup
  dsimp only
  rw [hmap, cleanupOldBackups_created recs settings (acc ++ [n]) hpair hlen1]
  congr 1
  congr 1
  by_cases h : acc.length < 10
  · rw [if_neg (by simp only [List.length_append, List.length_cons, List.length_nil]; omega),
      keepCap, if_pos (by simpa [MAX_BACKUPS] using h)]
  · have h10 : acc.length = 10 := by omega
    rw [if_pos (by simp only [List.length_append, List.length_cons, List.length_nil]; omega),
      keepCap, if_neg (by simpa [MAX_BACKUPS] using h)]
    obtain ⟨m, rest, rfl⟩ : ∃ m rest, acc = m :: rest := by
      cases acc with
      | nil => simp at h10
      | cons a b => exact ⟨a, b, rfl⟩
    simp

theorem runCreates_state (recs : List SpendingRecord) (settings : Option JsonValue) :
    ∀ (ns acc : List Int), acc.Pairwise (· < ·) → acc.length ≤ 10 →
    (∀ m ∈ acc, ∀ k ∈ ns, m < k) → ns.Pairwise (· < ·) →
    ns.foldl (fun st n => (createBackup st recs settings n).2)
        ⟨acc.map (mkCreatedFile recs settings)⟩
      = ⟨(ns.foldl keepCap acc).map (mkCreatedFile recs settings)⟩ := by
  intro ns
  induction ns with
  | nil => intro acc _ _ _ _; rfl
  | cons n ns ih =>
    intro acc hinc hlen hcross hns
    have hstep := createBackup_step recs settings acc n hlen hinc
      (fun m hm => hcross m hm n (List.mem_cons_self n ns))
    rw [List.foldl_cons, hstep]
    have hpairn := List.pairwise_cons.mp hns
    have hP : (acc ++ [n]).Pairwise (· < ·) := by
      rw [List.pairwise_append]
      refine ⟨hinc, List.pairwise_singleton _ _, ?_⟩
      intro a ha b hb
      rw [List.mem_singleton] at hb
      rw [hb]
      exact hcross a ha n (List.mem_cons_self n ns)
    refine ih (keepCap acc n) ?_ (length_keepCap acc n hlen) ?_ hpairn.2
    · rw [keepCap_eq_lastN acc n hlen]
      exact hP.sublist (List.drop_sublist _ _)
    · intro m hm k hk
      rw [keepCap_eq_lastN acc n hlen] at hm
      have hm' : m ∈ acc ++ [n] := List.mem_of_mem_drop hm
      rcases List.mem_append.mp hm' with hmem | hmem
      · exact hcross m hmem k (List.mem_cons_of_mem n hk)
      · rw [List.mem_singleton] at hmem
        subst hmem
        exact hpairn.1 k hk

/-- C5: starting from an empty backup directory, N successive `create()`
calls (N > 10) at strictly increasing clock values leave exactly 10
listable snapshots — the 10 most recent ones, listed newest first — every
dropped timestamp being older than every kept one, and no intermediate
state ever holds more than 10 snapshot files. -/
theorem backup_retention (recs : List SpendingRecord) (settings : Option JsonValue)
    (ns : List Int) (hinc : ns.Pairwise (· < ·)) (hN : 10 < ns.length) :
    (getAvailableBackups (runCreates recs settings ns)).length = 10
    ∧ (getAvailableBackups (runCreates recs settings ns)).map (fun b => b.timestamp)
        = (lastN 10 ns).reverse
    ∧ (∀ m ∈ ns, m ∉ lastN 10 ns → ∀ k ∈ lastN 10 ns, m < k)
    ∧ (∀ j, (runCreates recs settings (ns.take j)).files.length ≤ 10) := by
  have hstate : runCreates recs settings ns
      = ⟨(lastN 10 ns).map (mkCreatedFile recs settings)⟩ := by
    unfold runCreates
    have h0 := runCreates_state recs settings ns [] List.Pairwise.nil (by simp)
      (by simp) hinc
    rw [show (⟨[]⟩ : RepoState) = ⟨([] : List Int).map (mkCreatedFile recs settings)⟩
      from rfl, h0]
    congr 1
    congr 1
    have := (foldl_keepCap ns [] (by simp)).1
    simpa using this
  have hlastinc : (lastN 10 ns).Pairwise (· < ·) :=
    hinc.sublist (List.drop_sublist _ _)
  have hlist : getAvailableBackups (runCreates recs settings ns)
      = ((lastN 10 ns).map (mkCreatedInfo recs settings)).reverse := by
    rw [hstate, getAvailableBackups_created recs settings _ hlastinc]
  have hlen10 : (lastN 10 ns).length = 10 := by
    rw [length_lastN]
    omega
  have hmapts : ∀ L : List Int,
      (L.map (mkCreatedInfo recs settings)).map (fun b => b.timestamp) = L := by
    intro L
    induction L with
    | nil => rfl
    | cons a l ihl => simp [mkCreatedInfo, ihl]
  refine ⟨?_, ?_, ?_, ?_⟩
  · rw [hlist]
    simp [hlen10]
  · rw [hlist, ← List.map_reverse]
    exact hmapts ((lastN 10 ns).reverse)
  · intro m hm hnot k hk
    have hsplit := List.take_append_drop (ns.length - 10) ns
    have hp : (ns.take (ns.length - 10) ++ ns.drop (ns.length - 10)).Pairwise (· < ·) := by
      rw [hsplit]
      exact hinc
    have hcross := (List.pairwise_append.mp hp).2.2
    have hm' : m ∈ ns.take (ns.length - 10) ++ ns.drop (ns.length - 10) := by
      rw [hsplit]
      exact hm
    rcases List.mem_append.mp hm' with hmem | hmem
    · exact hcross m hmem k hk
    · exact absurd hmem hnot
  · intro j
    have htake : (ns.take j).Pairwise (· < ·) := hinc.sublist (List.take_sublist _ _)
    unfold runCreates
    rw [show (⟨[]⟩ : RepoState) = ⟨([] : List Int).map (mkCreatedFile recs settings)⟩
      from rfl,
      runCreates_state recs settings (ns.take j) [] List.Pairwise.nil (by simp)
        (by simp) htake]
    rw [show (⟨((ns.take j).foldl keepCap []).map (mkCreatedFile recs settings)⟩
        : RepoState).files
      = ((ns.take j).foldl keepCap []).map (mkCreatedFile recs settings) from rfl]
    rw [List.length_map]
    exact (foldl_keepCap (ns.take j) [] (by simp)).2

/-- C5 witness: twelve creates at clock values 0..11 leave exactly ten
listed snapshots. -/
theorem backup_retention_witness :
    ([(0 : Int), 1, 2, 3, 4, 5, 6, 7, 8, 9, 10, 11].Pairwise (· < ·))
    ∧ (getAvailableBackups (runCreates [] none
        [0, 1, 2, 3, 4, 5, 6, 7, 8, 9, 10, 11])).length = 10 :=
  ⟨by decide, (backup_retention [] none _ (by decide) (by decide)).1⟩
